import Mathlib

/-!
Shallow embedding of `src/bms_watch.py` (a BookMyShow availability watcher)
and proofs about its text matcher, showtime scanner, listing locator and
alert/notification logic.

Strings are modelled as `List Char`.  Python's `str.lower()` is modelled on
the ASCII range (the program only ever deals with ASCII configuration
keywords and DOM text in the claims under study).  Browser calls
(`query_selector_all`, `inner_text`, `get_attribute`) are external inputs:
their results appear as arguments of the embedded functions, with `Option`
encoding an absent element / absent attribute / extraction failure, exactly
where the Python code guards with `try`/`if el else`/`or ""`.
-/

namespace BmsWatch

/-- ASCII code of a character, used to phrase the regex character classes. -/
def code (c : Char) : Nat := c.toNat

/-- Membership in the regex class `[a-z0-9]` (the characters kept by
`re.sub(r"[^a-z0-9\s]+", " ", s)` besides whitespace). -/
def isKeep (c : Char) : Bool :=
  (97 ≤ code c && code c ≤ 122) || (48 ≤ code c && code c ≤ 57)

/-- Membership in the regex class `\s` (ASCII whitespace: space, TAB, LF,
VT, FF, CR), as matched by `re.sub(r"\s+", " ", s)` and friends. -/
def isWS (c : Char) : Bool :=
  code c = 32 || code c = 9 || code c = 10 || code c = 11 || code c = 12 || code c = 13

/-- Python `str.lower()` restricted to ASCII: uppercase letters are mapped
to lowercase, all other characters are unchanged. -/
def pyLower (c : Char) : Char :=
  if 65 ≤ code c && code c ≤ 90 then Char.ofNat (code c + 32) else c

/-- Embedding of `re.sub(r"[^a-z0-9\s]+", " ", s)`: each maximal run of
characters that are neither in `[a-z0-9]` nor whitespace is replaced by a
single space.  The Boolean flag records whether the previous character was
part of such a run (so that the run contributes only one space). -/
def sub1 : Bool → List Char → List Char
  | _, [] => []
  | prevDropped, c :: cs =>
    if isKeep c || isWS c then c :: sub1 false cs
    else if prevDropped then sub1 true cs
    else ' ' :: sub1 true cs

/-- Embedding of `re.sub(r"\s+", " ", s)`: each maximal run of whitespace
is replaced by a single space.  The Boolean flag records whether the
previous character was whitespace. -/
def sub2 : Bool → List Char → List Char
  | _, [] => []
  | prevWS, c :: cs =>
    if isWS c then
      if prevWS then sub2 true cs else ' ' :: sub2 true cs
    else c :: sub2 false cs

/-- Leading-whitespace removal, the first half of Python `str.strip()`. -/
def lstrip (l : List Char) : List Char := l.dropWhile (fun c => isWS c)

/-- Trailing-whitespace removal, the second half of Python `str.strip()`. -/
def rstrip : List Char → List Char
  | [] => []
  | c :: cs => if (rstrip cs).isEmpty && isWS c then [] else c :: rstrip cs

/-- Python `str.strip()`: drop leading and trailing whitespace. -/
def pyStrip (l : List Char) : List Char := rstrip (lstrip l)

/-- Embedding of `normalize` (src/bms_watch.py lines 52-57):
lowercase, turn punctuation runs into spaces, collapse whitespace, strip. -/
def normalize (s : List Char) : List Char :=
  pyStrip (sub2 false (sub1 false (s.map pyLower)))

/-- Embedding of the `(s or "")` guard at `normalize`'s entry: a missing
(`None`) argument is treated as the empty string. -/
def normalizeOpt (o : Option (List Char)) : List Char := normalize (o.getD [])

/-- Embedding of `contains_all` (src/bms_watch.py lines 60-62): every
keyword must occur as a contiguous substring (Python `in`) of the
normalized text. -/
def contains_all (text : List Char) (keywords : List (List Char)) : Bool :=
  keywords.all (fun kw => decide (kw <:+: normalize text))

/-- Default `THEATRE_KEYWORDS` (env default "inox,laila,mg,road",
split on commas, stripped and lowercased). -/
def THEATRE_KEYWORDS : List (List Char) :=
  ["inox".toList, "laila".toList, "mg".toList, "road".toList]

/-- Default `MOVIE_KEYWORDS` (env default
"demon,slayer,infinity,castle,japanese"). -/
def MOVIE_KEYWORDS : List (List Char) :=
  ["demon".toList, "slayer".toList, "infinity".toList, "castle".toList, "japanese".toList]

/-- The venue name used throughout the spec's scenarios. -/
def mgRoadName : List Char := "INOX: Laila Mall, M.G. Road".toList

/-- Modelled from the spec's words for C5: "replaces every character that is
not a lowercase ASCII letter or digit with a single space" — the
per-character replacement, to be compared with the run-replacement the
source's regex performs. -/
def replSpec (c : Char) : Char := if isKeep c then c else ' '

/-- Modelled from the spec's words for C5: lowercase, replace each
non-`[a-z0-9]` character by a space, collapse whitespace runs, trim. -/
def normalize_spec (s : List Char) : List Char :=
  pyStrip (sub2 false ((s.map pyLower).map replSpec))

theorem isWS_space : isWS ' ' = true := by decide

theorem isWS_of_isKeep_eq_false (c : Char) (h : isKeep c = true) : isWS c = false := by
  simp only [isKeep, Bool.or_eq_true, Bool.and_eq_true, decide_eq_true_eq] at h
  simp only [isWS, Bool.or_eq_false_iff, decide_eq_false_iff_not]
  omega

/-- Run-replacement followed by whitespace collapsing agrees with
per-character replacement followed by whitespace collapsing.  The flags
must satisfy: if `sub1` is mid-run then `sub2` has just seen whitespace. -/
theorem sub2_sub1_eq_replSpec (l : List Char) :
    ∀ b1 b2 : Bool, (b1 = true → b2 = true) →
      sub2 b2 (sub1 b1 l) = sub2 b2 (l.map replSpec) := by
  induction l with
  | nil => intro b1 b2 _; rfl
  | cons c cs ih =>
    intro b1 b2 h
    by_cases hk : isKeep c = true
    · have hw : isWS c = false := isWS_of_isKeep_eq_false c hk
      simp [sub1, sub2, replSpec, hk, hw, ih false false (by simp)]
    · by_cases hw : isWS c = true
      · simp [sub1, sub2, replSpec, hk, hw, isWS_space, ih false true (by simp)]
      · simp only [Bool.not_eq_true] at hw
        cases b1 with
        | false =>
          simp [sub1, sub2, replSpec, hk, hw, isWS_space, ih true true (by simp)]
        | true =>
          have hb2 : b2 = true := h rfl
          subst hb2
          simp [sub1, sub2, replSpec, hk, hw, isWS_space, ih true true (by simp)]

/-- C5: `normalize` lowercases, replaces every non-`[a-z0-9]` character
with a single space, collapses whitespace runs and trims: the
per-character reading stated by the spec agrees with the source's
run-replacement regex on every input; empty and missing input normalize to
the empty string; and the M.G. Road example evaluates as stated. -/
theorem c5_normalize_contract :
    (∀ s : List Char, normalize_spec s = normalize s)
      ∧ normalize [] = []
      ∧ normalizeOpt none = []
      ∧ normalize mgRoadName = "inox laila mall m g road".toList := by
  refine ⟨?_, rfl, rfl, by decide⟩
  intro s
  unfold normalize_spec normalize
  rw [sub2_sub1_eq_replSpec (s.map pyLower) false false (by simp)]

/-- Characters that may appear in the output of `normalize`: the kept class
`[a-z0-9]` or a single space. -/
def goodChar (c : Char) : Bool := isKeep c || (c == ' ')

/-- Every character of the list is a `goodChar`. -/
def allGood (l : List Char) : Bool := l.all goodChar

/-- No two adjacent whitespace characters occur in the list. -/
def noDbl : List Char → Bool
  | c :: d :: rest => (!(isWS c && isWS d)) && noDbl (d :: rest)
  | _ => true

/-- The first character, if any, is not whitespace. -/
def headOk : List Char → Bool
  | [] => true
  | c :: _ => !isWS c

/-- The last character, if any, is not whitespace. -/
def lastOk : List Char → Bool
  | [] => true
  | [c] => !isWS c
  | _ :: c :: cs => lastOk (c :: cs)

/-- A list is in normal form: only `[a-z0-9 ]` characters, no doubled
whitespace, no leading or trailing whitespace. -/
def canonical (l : List Char) : Bool := allGood l && noDbl l && headOk l && lastOk l

theorem noDbl_tail (c : Char) (l : List Char) (h : noDbl (c :: l) = true) :
    noDbl l = true := by
  cases l with
  | nil => rfl
  | cons d t => exact (Bool.and_eq_true _ _ ▸ h).2

theorem noDbl_cons_of_headOk (c : Char) (l : List Char) (h1 : headOk l = true)
    (h2 : noDbl l = true) : noDbl (c :: l) = true := by
  cases l with
  | nil => rfl
  | cons d t =>
    simp only [headOk, Bool.not_eq_true'] at h1
    simp [noDbl, h1, h2]

theorem mem_sub1 : ∀ (b : Bool) (l : List Char), ∀ c ∈ sub1 b l,
    isKeep c = true ∨ isWS c = true := by
  intro b l
  induction l generalizing b with
  | nil => intro c hc; simp [sub1] at hc
  | cons a as ih =>
    intro c hc
    simp only [sub1] at hc
    split at hc
    · rcases List.mem_cons.mp hc with rfl | h2
      · rename_i hcond; simpa using hcond
      · exact ih false c h2
    · split at hc
      · exact ih true c hc
      · rcases List.mem_cons.mp hc with rfl | h2
        · right; decide
        · exact ih true c h2

theorem mem_sub2 : ∀ (b : Bool) (l : List Char), ∀ c ∈ sub2 b l,
    c = ' ' ∨ (isWS c = false ∧ c ∈ l) := by
  intro b l
  induction l generalizing b with
  | nil => intro c hc; simp [sub2] at hc
  | cons a as ih =>
    intro c hc
    simp only [sub2] at hc
    split at hc
    · split at hc
      · rcases ih true c hc with h | ⟨h1, h2⟩
        · exact Or.inl h
        · exact Or.inr ⟨h1, List.mem_cons_of_mem _ h2⟩
      · rcases List.mem_cons.mp hc with rfl | h2
        · exact Or.inl rfl
        · rcases ih true c h2 with h | ⟨h1, h3⟩
          · exact Or.inl h
          · exact Or.inr ⟨h1, List.mem_cons_of_mem _ h3⟩
    · rcases List.mem_cons.mp hc with rfl | h2
      · rename_i hcond
        exact Or.inr ⟨by simpa using hcond, List.mem_cons_self _ _⟩
      · rcases ih false c h2 with h | ⟨h1, h3⟩
        · exact Or.inl h
        · exact Or.inr ⟨h1, List.mem_cons_of_mem _ h3⟩

theorem noDbl_sub2 : ∀ (l : List Char) (b : Bool),
    noDbl (sub2 b l) = true ∧ (b = true → headOk (sub2 b l) = true) := by
  intro l
  induction l with
  | nil => intro b; exact ⟨rfl, fun _ => rfl⟩
  | cons a as ih =>
    intro b
    by_cases hws : isWS a = true
    · cases b with
      | true =>
        simp only [sub2, hws, ite_true]
        exact ⟨(ih true).1, fun _ => (ih true).2 rfl⟩
      | false =>
        simp only [sub2, hws, ite_true, ite_false]
        refine ⟨noDbl_cons_of_headOk _ _ ((ih true).2 rfl) (ih true).1, ?_⟩
        intro hfalse; cases hfalse
    · simp only [sub2, hws, ite_false, Bool.false_eq_true]
      refine ⟨?_, ?_⟩
      · cases hs : sub2 false as with
        | nil => rfl
        | cons d t =>
          have : noDbl (sub2 false as) = true := (ih false).1
          rw [hs] at this
          simp only [Bool.not_eq_true] at hws
          simp [noDbl, hws, this]
      · intro _
        simp only [Bool.not_eq_true] at hws
        simp [headOk, hws]

theorem mem_lstrip : ∀ (l : List Char), ∀ c ∈ lstrip l, c ∈ l := by
  intro l
  induction l with
  | nil => intro c hc; simp [lstrip] at hc
  | cons a as ih =>
    intro c hc
    simp only [lstrip, List.dropWhile_cons] at hc
    split at hc
    · exact List.mem_cons_of_mem _ (ih c hc)
    · exact hc

theorem headOk_lstrip (l : List Char) : headOk (lstrip l) = true := by
  induction l with
  | nil => rfl
  | cons a as ih =>
    simp only [lstrip, List.dropWhile_cons]
    split
    · exact ih
    · rename_i hcond
      simp only [Bool.not_eq_true] at hcond
      simp [headOk, hcond]

theorem noDbl_lstrip (l : List Char) (h : noDbl l = true) : noDbl (lstrip l) = true := by
  induction l with
  | nil => rfl
  | cons a as ih =>
    simp only [lstrip, List.dropWhile_cons]
    split
    · exact ih (noDbl_tail a as h)
    · exact h

theorem rstrip_cons_shape (c : Char) (cs : List Char) :
    rstrip (c :: cs) = [] ∨ rstrip (c :: cs) = c :: rstrip cs := by
  rw [rstrip]
  split
  · exact Or.inl rfl
  · exact Or.inr rfl

theorem mem_rstrip : ∀ (l : List Char), ∀ c ∈ rstrip l, c ∈ l := by
  intro l
  induction l with
  | nil => intro c hc; simp [rstrip] at hc
  | cons a as ih =>
    intro c hc
    rw [rstrip] at hc
    split at hc
    · simp at hc
    · rcases List.mem_cons.mp hc with rfl | h2
      · exact List.mem_cons_self _ _
      · exact List.mem_cons_of_mem _ (ih c h2)

theorem headOk_rstrip (l : List Char) (h : headOk l = true) :
    headOk (rstrip l) = true := by
  cases l with
  | nil => rfl
  | cons a as =>
    rcases rstrip_cons_shape a as with he | he <;> rw [he]
    · rfl
    · simpa [headOk] using h

theorem noDbl_rstrip : ∀ (l : List Char), noDbl l = true → noDbl (rstrip l) = true := by
  intro l
  induction l with
  | nil => intro _; rfl
  | cons a as ih =>
    intro h
    rcases rstrip_cons_shape a as with he | he <;> rw [he]
    · rfl
    · have htail := ih (noDbl_tail a as h)
      cases has : as with
      | nil => simp [rstrip, noDbl]
      | cons d t =>
        rw [has] at htail
        rcases rstrip_cons_shape d t with he2 | he2 <;> rw [he2]
        · simp [noDbl]
        · rw [he2] at htail
          rw [has] at h
          have h1 : (!(isWS a && isWS d)) = true := (Bool.and_eq_true _ _ ▸ h).1
          simp [noDbl, htail]
          simpa using h1

theorem lastOk_rstrip : ∀ (l : List Char), lastOk (rstrip l) = true := by
  intro l
  induction l with
  | nil => rfl
  | cons a as ih =>
    rw [rstrip]
    split
    · rfl
    · rename_i hcond
      cases he : rstrip as with
      | nil =>
        have hwa : isWS a = false := by
          rw [he] at hcond
          simpa using hcond
        simp [lastOk, hwa]
      | cons d t =>
        rw [he] at ih
        simpa [lastOk] using ih

theorem goodChar_cases (c : Char) (h : goodChar c = true) :
    isKeep c = true ∨ c = ' ' := by
  simpa [goodChar] using h

theorem goodChar_keep_or_ws (c : Char) (h : goodChar c = true) :
    (isKeep c || isWS c) = true := by
  rcases goodChar_cases c h with hk | rfl
  · simp [hk]
  · decide

theorem pyLower_of_goodChar (c : Char) (h : goodChar c = true) : pyLower c = c := by
  rcases goodChar_cases c h with hk | rfl
  · simp only [isKeep, Bool.or_eq_true, Bool.and_eq_true, decide_eq_true_eq] at hk
    unfold pyLower
    rw [if_neg]
    simp only [Bool.and_eq_true, decide_eq_true_eq, not_and]
    omega
  · decide

theorem allGood_head (c : Char) (l : List Char) (h : allGood (c :: l) = true) :
    goodChar c = true := by
  simp only [allGood, List.all_cons, Bool.and_eq_true] at h
  exact h.1

theorem allGood_tail (c : Char) (l : List Char) (h : allGood (c :: l) = true) :
    allGood l = true := by
  simp only [allGood, List.all_cons, Bool.and_eq_true] at h
  exact h.2

theorem map_pyLower_id (l : List Char) (h : allGood l = true) : l.map pyLower = l := by
  induction l with
  | nil => rfl
  | cons a as ih =>
    rw [List.map_cons, pyLower_of_goodChar a (allGood_head a as h),
      ih (allGood_tail a as h)]

theorem sub1_id (l : List Char) (h : allGood l = true) : ∀ b, sub1 b l = l := by
  induction l with
  | nil => intro b; rfl
  | cons a as ih =>
    intro b
    rw [sub1, if_pos (goodChar_keep_or_ws a (allGood_head a as h)),
      ih (allGood_tail a as h) false]

theorem sub2_id : ∀ (l : List Char), allGood l = true → noDbl l = true →
    ∀ b : Bool, (b = true → headOk l = true) → sub2 b l = l := by
  intro l
  induction l with
  | nil => intro _ _ b _; rfl
  | cons a as ih =>
    intro hg hd b hb
    by_cases hws : isWS a = true
    · have ha : a = ' ' := by
        rcases goodChar_cases a (allGood_head a as hg) with hk | h
        · rw [isWS_of_isKeep_eq_false a hk] at hws; cases hws
        · exact h
      cases b with
      | true =>
        have := hb rfl
        simp [headOk, hws] at this
      | false =>
        rw [sub2, if_pos hws, if_neg (by simp)]
        subst ha
        congr 1
        apply ih (allGood_tail _ as hg) (noDbl_tail _ as hd) true
        intro _
        cases as with
        | nil => rfl
        | cons d t =>
          have h1 : (!(isWS ' ' && isWS d)) = true := (Bool.and_eq_true _ _ ▸ hd).1
          simp only [headOk]
          simpa [isWS_space] using h1
    · rw [sub2, if_neg hws]
      rw [ih (allGood_tail a as hg) (noDbl_tail a as hd) false (by simp)]

theorem lstrip_id (l : List Char) (h : headOk l = true) : lstrip l = l := by
  cases l with
  | nil => rfl
  | cons a as =>
    simp only [headOk, Bool.not_eq_true'] at h
    simp [lstrip, List.dropWhile_cons, h]

theorem rstrip_id : ∀ (l : List Char), lastOk l = true → rstrip l = l := by
  intro l
  induction l with
  | nil => intro _; rfl
  | cons a as ih =>
    intro h
    cases as with
    | nil =>
      simp only [lastOk, Bool.not_eq_true'] at h
      simp [rstrip, h]
    | cons d t =>
      have h2 : lastOk (d :: t) = true := by simpa [lastOk] using h
      rw [rstrip, ih h2]
      simp

theorem allGood_of_subset {l m : List Char} (hsub : ∀ c ∈ l, c ∈ m)
    (h : allGood m = true) : allGood l = true := by
  rw [allGood, List.all_eq_true] at h ⊢
  intro c hc
  exact h c (hsub c hc)

theorem allGood_sub2_sub1 (l : List Char) :
    allGood (sub2 false (sub1 false l)) = true := by
  rw [allGood, List.all_eq_true]
  intro c hc
  rcases mem_sub2 _ _ c hc with rfl | ⟨hw, hm⟩
  · decide
  · rcases mem_sub1 _ _ c hm with hk | hws
    · simp [goodChar, hk]
    · rw [hws] at hw; cases hw

theorem canonical_normalize (s : List Char) : canonical (normalize s) = true := by
  unfold canonical normalize pyStrip
  have hg : allGood (sub2 false (sub1 false (s.map pyLower))) = true :=
    allGood_sub2_sub1 _
  have hd : noDbl (sub2 false (sub1 false (s.map pyLower))) = true :=
    (noDbl_sub2 _ false).1
  have hg2 := allGood_of_subset (mem_lstrip _) hg
  have hd2 := noDbl_lstrip _ hd
  have hh2 := headOk_lstrip (sub2 false (sub1 false (s.map pyLower)))
  have hg3 := allGood_of_subset (mem_rstrip _) hg2
  have hd3 := noDbl_rstrip _ hd2
  have hh3 := headOk_rstrip _ hh2
  have hl3 := lastOk_rstrip (lstrip (sub2 false (sub1 false (s.map pyLower))))
  simp [hg3, hd3, hh3, hl3]

theorem normalize_eq_of_canonical (l : List Char) (h : canonical l = true) :
    normalize l = l := by
  have h4 : allGood l = true ∧ noDbl l = true ∧ headOk l = true ∧ lastOk l = true := by
    simpa [canonical, Bool.and_eq_true, and_assoc] using h
  obtain ⟨hg, hd, hh, hl⟩ := h4
  unfold normalize pyStrip
  rw [map_pyLower_id l hg, sub1_id l hg false, sub2_id l hg hd false (by simp),
    lstrip_id l hh, rstrip_id l hl]

/-- C7: `normalize` is idempotent — normalizing an already-normalized
string leaves it unchanged, for every input string. -/
theorem c7_normalize_idempotent (s : List Char) :
    normalize (normalize s) = normalize s :=
  normalize_eq_of_canonical _ (canonical_normalize s)

/-- C9: the output of `normalize` contains only ASCII lowercase letters,
digits and spaces, with no leading or trailing whitespace and no two
adjacent whitespace characters, for every input string. -/
theorem c9_normalize_output_invariant (s : List Char) :
    allGood (normalize s) = true ∧ noDbl (normalize s) = true
      ∧ headOk (normalize s) = true ∧ lastOk (normalize s) = true := by
  have h := canonical_normalize s
  simpa [canonical, Bool.and_eq_true, and_assoc] using h

/-- C1: `contains-all` on the M.G. Road venue name with the default theatre
keywords is `false`: normalization maps "M.G." to "m g", so the keyword
"mg" is not a contiguous substring of the normalized text
"inox laila mall m g road"; consequently any text normalizing to that
string fails the default keyword test. -/
theorem c1_mg_keyword_never_matches :
    contains_all mgRoadName THEATRE_KEYWORDS = false
      ∧ normalize mgRoadName = "inox laila mall m g road".toList
      ∧ ¬ ("mg".toList <:+: normalize mgRoadName)
      ∧ ∀ t : List Char, normalize t = "inox laila mall m g road".toList →
          contains_all t THEATRE_KEYWORDS = false := by
  refine ⟨by decide, by decide, by decide, ?_⟩
  intro t ht
  simp only [contains_all, THEATRE_KEYWORDS, List.all_cons, List.all_nil, ht]
  decide

/-- Witness for the conditional part of C1: the M.G. Road name itself. -/
theorem c1_mg_keyword_never_matches_witness :
    contains_all mgRoadName THEATRE_KEYWORDS = false :=
  (c1_mg_keyword_never_matches.2.2.2) mgRoadName (by decide)

/-- C8: `contains-all` is antitone in the keyword list — inserting a
keyword anywhere can only turn a true result false, never a false one
true (equivalently: if the extended list passes, the original passed). -/
theorem c8_contains_all_antitone (text kw : List Char) (l1 l2 : List (List Char))
    (h : contains_all text (l1 ++ kw :: l2) = true) :
    contains_all text (l1 ++ l2) = true := by
  simp only [contains_all, List.all_append, List.all_cons, Bool.and_eq_true] at h ⊢
  exact ⟨h.1, h.2.2⟩

/-- Witness for C8 at a concrete input: "broadway" passes with the
keywords [road, way] and still passes once "road" is removed. -/
theorem c8_contains_all_antitone_witness :
    contains_all "broadway".toList ([] ++ "road".toList :: ["way".toList]) = true
      ∧ contains_all "broadway".toList ([] ++ ["way".toList]) = true :=
  ⟨by decide, c8_contains_all_antitone "broadway".toList "road".toList [] ["way".toList]
    (by decide)⟩

/-- Word characters for the regex `\b` boundary, ASCII model of Python's
word class `[A-Za-z0-9_]`. -/
def isWordChar (c : Char) : Bool :=
  (97 ≤ code c && code c ≤ 122) || (65 ≤ code c && code c ≤ 90) ||
    (48 ≤ code c && code c ≤ 57) || code c = 95

/-- ASCII digit, the regex class `\d`. -/
def isDigitChar (c : Char) : Bool := 48 ≤ code c && code c ≤ 57

/-- Word boundary `\b` between a previous character of word-status
`prevWord` and the rest of the string: the two sides differ in word
status (end of string counts as non-word). -/
def boundaryAfter (prevWord : Bool) : List Char → Bool
  | [] => prevWord
  | c :: _ => prevWord != isWordChar c

/-- Case-insensitive `(AM|PM)` followed by a word boundary. -/
def ampmBoundary : List Char → Bool
  | a :: m :: rest =>
    ((a == 'A' || a == 'a' || a == 'P' || a == 'p') && (m == 'M' || m == 'm'))
      && boundaryAfter true rest
  | _ => false

/-- After `\d{1,2}:\d{2}` was consumed, match `\s*(AM|PM)?\b`:
either stop here at a boundary, read a case-insensitive AM/PM marker, or
consume one more whitespace character (existence over the amount of
consumed whitespace models `re.search`'s backtracking). -/
def tailMatch (prevWord : Bool) : List Char → Bool
  | [] => boundaryAfter prevWord []
  | c :: cs =>
    boundaryAfter prevWord (c :: cs) || ampmBoundary (c :: cs)
      || (isWS c && tailMatch false cs)

/-- Match `:` then exactly two digits, then the tail of the pattern. -/
def matchAfterDigits : List Char → Bool
  | c :: d1 :: d2 :: rest =>
    (c == ':') && isDigitChar d1 && isDigitChar d2 && tailMatch true rest
  | _ => false

/-- Second-digit alternative of `\d{1,2}`. -/
def matchDigit2 : List Char → Bool
  | c2 :: rest2 => isDigitChar c2 && matchAfterDigits rest2
  | [] => false

/-- Match `\d{1,2}:\d{2}\s*(AM|PM)?\b` starting at the head of the list. -/
def matchCore : List Char → Bool
  | [] => false
  | c1 :: rest => isDigitChar c1 && (matchAfterDigits rest || matchDigit2 rest)

/-- Embedding of `re.search(r"\b\d{1,2}:\d{2}\s*(AM|PM)?\b", t, re.I)`
being truthy: some position preceded by a word boundary starts a full
match.  `prev` is the word-status of the character before the current
position (`false` at the start of the string; since the pattern starts
with a digit, the leading `\b` amounts to `prev` being non-word). -/
def searchTime (prev : Bool) : List Char → Bool
  | [] => false
  | c :: cs => (!prev && matchCore (c :: cs)) || searchTime (isWordChar c) cs

/-- A clickable element (`a` or `button`) found inside a venue block: its
visible text (`inner_text() or ""`) and its `class` attribute (`none`
when the attribute is absent, collapsed to "" by `or ""` in the code). -/
structure BtnElem where
  text : List Char
  cls : Option (List Char)
deriving DecidableEq

/-- A candidate venue-name element as enumerated by the scan's selector
query, together with the clickable elements of its enclosing block (the
3-level parent ascent and the descendant query are browser operations,
external inputs here).  `nameText = none` models `el.inner_text()`
raising, which the code answers with `continue`. -/
structure VenueEl where
  nameText : Option (List Char)
  btns : List BtnElem
deriving DecidableEq

/-- Body of the button loop in `scan`: keep the stripped text of every
clickable element whose text matches the time pattern and whose class
attribute does not normalize to contain "disabled". -/
def collectTimes (bs : List BtnElem) : List (List Char) :=
  bs.filterMap (fun b =>
    let t := pyStrip b.text
    if searchTime false t
        && !(decide ("disabled".toList <:+: normalize (b.cls.getD []))) then
      some t
    else none)

/-- Embedding of `scan` (src/bms_watch.py lines 171-207): walk the venue
candidates in document order; skip any whose name cannot be extracted, is
empty after stripping, or fails the theatre-keyword test; return at the
first candidate whose block yields at least one time label, with its
stripped name and the collected times. -/
def scan (theatreKw : List (List Char)) : List VenueEl → Option (List Char × List (List Char))
  | [] => none
  | v :: vs =>
    match v.nameText with
    | none => scan theatreKw vs
    | some raw =>
      if (pyStrip raw).isEmpty || !contains_all (pyStrip raw) theatreKw then
        scan theatreKw vs
      else if (collectTimes v.btns).isEmpty then scan theatreKw vs
      else some (pyStrip raw, collectTimes v.btns)

/-- The tagged outcome of `run_check`: the three status values
"no-movie-card", "no-showtimes" and "live". -/
inductive ScanResult where
  | noMovieCard : ScanResult
  | noShowtimes : ScanResult
  | live : List Char → List (List Char) → ScanResult
deriving DecidableEq

/-- Embedding of the result construction at the end of `run_check` (lines
230-235): a successful scan yields `live` with the first ten collected
times (`times[:10]`), otherwise the no-showtimes outcome. -/
def scanToResult (theatreKw : List (List Char)) (els : List VenueEl) : ScanResult :=
  match scan theatreKw els with
  | some (n, ts) => ScanResult.live n (ts.take 10)
  | none => ScanResult.noShowtimes

/-- Number of showtimes carried by a result. -/
def resultTimesLen : ScanResult → Nat
  | ScanResult.live _ ts => ts.length
  | _ => 0

/-- Scenario B's venue block: bookable buttons "10:30 AM" and "1:15 PM"
and a third button "6:00 PM" whose class contains "disabled". -/
def scenarioVenue : VenueEl :=
  { nameText := some mgRoadName,
    btns := [ { text := "10:30 AM".toList, cls := none },
              { text := "1:15 PM".toList, cls := none },
              { text := "6:00 PM".toList, cls := some "showtime-btn disabled".toList } ] }

/-- Theatre keywords all of which occur in the normalized M.G. Road name
(the default list's "mg" does not, which is what breaks scenario B). -/
def matchedTheatreKw : List (List Char) :=
  ["inox".toList, "laila".toList, "road".toList]

/-- Counterexample to C6 as stated: with the program's default theatre
keyword list the scenario-B venue name never matches ("mg" is not a
substring of the normalized name), so the scanner reports no-showtimes
instead of the claimed live result. -/
theorem c6_default_keywords_counterexample :
    scanToResult THEATRE_KEYWORDS [scenarioVenue] = ScanResult.noShowtimes
      ∧ ScanResult.noShowtimes
          ≠ ScanResult.live mgRoadName ["10:30 AM".toList, "1:15 PM".toList] := by
  exact ⟨by decide, by decide⟩

/-- C6 (amended): on the scenario-B page, with a theatre keyword list that
does match the venue name (e.g. the default list without "mg"), the
scanner stops at that first yielding venue — whatever venues follow — and
returns `live` with exactly the two enabled button texts, the disabled
"6:00 PM" excluded; and for every input the returned times list holds at
most ten entries. -/
theorem c6_scanner_scenario_b :
    (∀ rest : List VenueEl,
      scanToResult matchedTheatreKw (scenarioVenue :: rest)
        = ScanResult.live mgRoadName ["10:30 AM".toList, "1:15 PM".toList])
      ∧ (∀ (kw : List (List Char)) (els : List VenueEl),
          resultTimesLen (scanToResult kw els) ≤ 10) := by
  constructor
  · intro rest
    have hname : ((pyStrip mgRoadName).isEmpty
        || !contains_all (pyStrip mgRoadName) matchedTheatreKw) = false := by decide
    have htimes : collectTimes scenarioVenue.btns
        = ["10:30 AM".toList, "1:15 PM".toList] := by decide
    have hne : (collectTimes scenarioVenue.btns).isEmpty = false := by
      rw [htimes]; rfl
    have hstrip : pyStrip mgRoadName = mgRoadName := by decide
    simp only [scanToResult, scan, scenarioVenue, hname, hne, htimes, hstrip,
      Bool.false_eq_true, if_false]
    rfl
  · intro kw els
    unfold scanToResult
    cases hscan : scan kw els with
    | none => simp [resultTimesLen]
    | some p =>
      simp only [resultTimesLen, List.length_take]
      exact min_le_left _ _

/-- SMTP/mail environment configuration (`SMTP_HOST`, `SMTP_USER`,
`SMTP_PASS`, `EMAIL_TO`): each field is `none` when the variable is
unset; Python truthiness also treats a set-but-empty string as missing. -/
structure MailConfig where
  smtpHost : Option (List Char)
  smtpUser : Option (List Char)
  smtpPass : Option (List Char)
  emailTo : Option (List Char)
deriving DecidableEq

/-- Python truthiness of an optional string. -/
def truthy : Option (List Char) → Bool
  | none => false
  | some s => !s.isEmpty

/-- The guard at the top of `send_email` (line 38): all four mail settings
present and non-empty. -/
def mailReady (cfg : MailConfig) : Bool :=
  truthy cfg.smtpHost && truthy cfg.smtpUser && truthy cfg.smtpPass && truthy cfg.emailTo

/-- Outcome of a call to `send_email` (lines 37-49): the guard returns
`False` (skipped, a warning is printed); otherwise the SMTP session either
completes and the function returns `True`, or the transport raises — and
since `send_email` has no handler around the `smtplib` calls, the
exception propagates to the caller. -/
inductive SendOutcome where
  | skipped : SendOutcome
  | sent : SendOutcome
  | raised : SendOutcome
deriving DecidableEq

/-- Embedding of `send_email`; `transportOk` is the behaviour of the
external SMTP transport (starttls + login + send) during this call. -/
def send_email (cfg : MailConfig) (transportOk : Bool) : SendOutcome :=
  if !mailReady cfg then SendOutcome.skipped
  else if transportOk then SendOutcome.sent
  else SendOutcome.raised

/-- Observable effect of one execution of `main` (lines 238-262) on the
alert state: the persisted `alerted` flag after the run, whether
`save_state` wrote the file, how many `send_email` calls were made, and
whether an exception escaped `main`. -/
structure RunOutcome where
  alerted : Bool
  saved : Bool
  sendAttempts : Nat
  raised : Bool
deriving DecidableEq

/-- One pass of `main`, given the loaded `alerted` flag and the scan
result: on a live result with `alerted` still false, `send_email` is
called once; only a `True` return mutates the state dict and saves it; an
SMTP exception aborts the pass before any state change; every other case
touches nothing. -/
def mainStep (cfg : MailConfig) (transportOk : Bool) (alerted : Bool)
    (r : ScanResult) : RunOutcome :=
  match r with
  | ScanResult.live _ _ =>
    if alerted then
      { alerted := alerted, saved := false, sendAttempts := 0, raised := false }
    else
      match send_email cfg transportOk with
      | SendOutcome.sent =>
        { alerted := true, saved := true, sendAttempts := 1, raised := false }
      | SendOutcome.skipped =>
        { alerted := alerted, saved := false, sendAttempts := 1, raised := false }
      | SendOutcome.raised =>
        { alerted := alerted, saved := false, sendAttempts := 1, raised := true }
  | _ => { alerted := alerted, saved := false, sendAttempts := 0, raised := false }

/-- Discriminator for the live variant. -/
def isLive : ScanResult → Bool
  | ScanResult.live _ _ => true
  | _ => false

/-- Embedding of `load_state` followed by `bool(state.get("alerted"))`
(lines 65-74, 239-240): a missing or malformed state file loads as the
empty dict (`none`), a file without the key (`some none`) is falsy too. -/
def loadAlerted : Option (Option Bool) → Bool
  | none => false
  | some none => false
  | some (some b) => b

/-- A fully populated mail configuration, for concrete instantiations. -/
def cfgFull : MailConfig :=
  { smtpHost := some "smtp.example.com".toList
    smtpUser := some "user".toList
    smtpPass := some "secret".toList
    emailTo := some "dest@example.com".toList }

/-- A mail configuration with every variable unset. -/
def cfgEmpty : MailConfig :=
  { smtpHost := none, smtpUser := none, smtpPass := none, emailTo := none }

/-- C3: `main` calls `send_email` exactly when the result is live and the
loaded state is not yet alerted; in particular zero attempts whenever
`alerted` is true, regardless of the result variant. -/
theorem c3_notify_decision (cfg : MailConfig) (transportOk alerted : Bool)
    (r : ScanResult) :
    (mainStep cfg transportOk alerted r).sendAttempts
      = (if isLive r && !alerted then 1 else 0) := by
  cases r <;> cases alerted <;>
    simp only [mainStep, isLive, Bool.and_true, Bool.and_false, Bool.not_true,
      Bool.not_false, if_true, if_false, Bool.false_and, Bool.true_and,
      ite_true, ite_false] <;>
    first
      | rfl
      | (cases send_email cfg transportOk <;> rfl)

/-- Counterexample to C2 as stated: with a complete mail configuration, an
unalerted state and a live result, a failing SMTP delivery makes the
exception escape `main` — the failure is raised to the caller, not merely
logged (the state is still not written). -/
theorem c2_delivery_failure_raises :
    (mainStep cfgFull false false (ScanResult.live mgRoadName [])).raised = true
      ∧ (mainStep cfgFull false false (ScanResult.live mgRoadName [])).saved = false := by
  exact ⟨rfl, rfl⟩

/-- C2 (amended): whenever the mail configuration is incomplete or the
transport fails, `main` neither sets `alerted` nor writes the state file;
with incomplete configuration the condition is only logged (`send_email`
returns `False`, no exception), while a transport failure during an
actual delivery attempt propagates out of `send_email` as an exception. -/
theorem c2_failure_leaves_state_unmodified (cfg : MailConfig)
    (transportOk alerted : Bool) (r : ScanResult)
    (h : mailReady cfg = false ∨ transportOk = false) :
    (mainStep cfg transportOk alerted r).alerted = alerted
      ∧ (mainStep cfg transportOk alerted r).saved = false
      ∧ (mailReady cfg = false →
          (mainStep cfg transportOk alerted r).raised = false) := by
  have hsend : send_email cfg transportOk = SendOutcome.skipped
      ∨ (mailReady cfg = true ∧ send_email cfg transportOk = SendOutcome.raised) := by
    by_cases hm : mailReady cfg = true
    · rcases h with h | h
      · rw [hm] at h; cases h
      · subst h
        exact Or.inr ⟨hm, by simp [send_email, hm]⟩
    · simp only [Bool.not_eq_true] at hm
      exact Or.inl (by simp [send_email, hm])
  cases r with
  | live n ts =>
    cases alerted with
    | true => exact ⟨rfl, rfl, fun _ => rfl⟩
    | false =>
      rcases hsend with hs | ⟨hm, hs⟩ <;> simp only [mainStep, if_false, hs]
      · exact ⟨rfl, rfl, fun _ => rfl⟩
      · exact ⟨rfl, rfl, fun hx => by rw [hm] at hx; cases hx⟩
  | noMovieCard => exact ⟨rfl, rfl, fun _ => rfl⟩
  | noShowtimes => exact ⟨rfl, rfl, fun _ => rfl⟩

/-- Witness for C2 (amended), at an entirely missing configuration with a
live result: nothing saved, nothing raised. -/
theorem c2_failure_leaves_state_unmodified_witness :
    (mainStep cfgEmpty true false (ScanResult.live mgRoadName [])).alerted = false
      ∧ (mainStep cfgEmpty true false (ScanResult.live mgRoadName [])).saved = false
      ∧ (mailReady cfgEmpty = false →
          (mainStep cfgEmpty true false (ScanResult.live mgRoadName [])).raised = false) :=
  c2_failure_leaves_state_unmodified cfgEmpty true false
    (ScanResult.live mgRoadName []) (Or.inl rfl)

/-- A sequence of scheduled runs: each run loads the flag left behind by
the previous one (an unsaved run leaves the file untouched, and
`mainStep` returns the unchanged flag in exactly those cases), and the
`send_email` calls are summed. -/
def runSeq (cfg : MailConfig) (transportOk : Bool) :
    Bool → List ScanResult → Bool × Nat
  | st, [] => (st, 0)
  | st, r :: rs =>
    let o := mainStep cfg transportOk st r
    let p := runSeq cfg transportOk o.alerted rs
    (p.1, o.sendAttempts + p.2)

theorem runSeq_of_alerted (cfg : MailConfig) (transportOk : Bool) :
    ∀ rs : List ScanResult, runSeq cfg transportOk true rs = (true, 0) := by
  intro rs
  induction rs with
  | nil => rfl
  | cons r rs ih =>
    have ho : mainStep cfg transportOk true r
        = { alerted := true, saved := false, sendAttempts := 0, raised := false } := by
      cases r <;> rfl
    simp [runSeq, ho, ih]

/-- C4: starting from a reset state (missing state file), over any
non-empty sequence of all-live scan results with complete mail
configuration and a succeeding transport, exactly one send is attempted
in total; the first run sends, sets `alerted` and persists it, and the
final persisted flag is true (so every later run attempts nothing). -/
theorem c4_alert_sent_exactly_once (cfg : MailConfig) (rs : List ScanResult)
    (hready : mailReady cfg = true) (hne : rs ≠ [])
    (hlive : ∀ r ∈ rs, isLive r = true) :
    (runSeq cfg true (loadAlerted none) rs).2 = 1
      ∧ (runSeq cfg true (loadAlerted none) rs).1 = true
      ∧ (mainStep cfg true (loadAlerted none) (rs.head hne)).saved = true
      ∧ (mainStep cfg true (loadAlerted none) (rs.head hne)).alerted = true := by
  cases rs with
  | nil => cases hne rfl
  | cons r rest =>
    have hr : isLive r = true := hlive r (List.mem_cons_self _ _)
    have ho : mainStep cfg true false r
        = { alerted := true, saved := true, sendAttempts := 1, raised := false } := by
      cases r with
      | live n ts => simp [mainStep, send_email, hready, loadAlerted]
      | noMovieCard => simp [isLive] at hr
      | noShowtimes => simp [isLive] at hr
    have hrest := runSeq_of_alerted cfg true rest
    refine ⟨?_, ?_, ?_, ?_⟩ <;>
      simp [runSeq, List.head, ho, hrest, loadAlerted]

/-- Two consecutive live results for the C4 witness. -/
def twoLive : List ScanResult :=
  [ScanResult.live mgRoadName ["10:30 AM".toList],
   ScanResult.live mgRoadName ["10:30 AM".toList]]

/-- Witness for C4 at a concrete run sequence: two consecutive live scans
with a working, fully configured transport attempt exactly one send. -/
theorem c4_alert_sent_exactly_once_witness :
    (runSeq cfgFull true (loadAlerted none) twoLive).2 = 1
      ∧ (runSeq cfgFull true (loadAlerted none) twoLive).1 = true
      ∧ (mainStep cfgFull true (loadAlerted none)
          (twoLive.head (by decide))).saved = true
      ∧ (mainStep cfgFull true (loadAlerted none)
          (twoLive.head (by decide))).alerted = true :=
  c4_alert_sent_exactly_once cfgFull twoLive rfl (by decide) (by decide)

/-- A structured listing card from the card loop (lines 127-139): `title`
is the extracted title text (`none` models both "no title element" and an
extraction exception, which the code collapses to ""), `href` is the card
anchor's `href` attribute, with `none` covering both "no anchor element"
(`card.query_selector("a")` returned nothing) and "anchor without an href
attribute" (`get_attribute` returned `None`). -/
structure Card where
  title : Option (List Char)
  href : Option (List Char)
deriving DecidableEq

/-- A generic anchor from the fallback loop over `a[href*="/movie/"]`
(lines 142-149), with the same `Option` conventions as `Card`. -/
structure AnchorEl where
  text : Option (List Char)
  href : Option (List Char)
deriving DecidableEq

/-- URL resolution (lines 138, 148): hrefs starting with "/" are made
absolute against the site origin. -/
def resolveUrl (h : List Char) : List Char :=
  if h.head? = some '/' then "https://in.bookmyshow.com".toList ++ h else h

/-- Embedding of the card loop: the first card whose title passes the
movie-keyword test AND whose anchor has a truthy (present, non-empty)
href yields the resolved link; a matching card without a usable href is
passed over (`if href:` fails, no `break`) and the loop continues. -/
def findCardLink (movieKw : List (List Char)) : List Card → Option (List Char)
  | [] => none
  | c :: cs =>
    if contains_all (pyStrip (c.title.getD [])) movieKw then
      match c.href with
      | some h => if h.isEmpty then findCardLink movieKw cs else some (resolveUrl h)
      | none => findCardLink movieKw cs
    else findCardLink movieKw cs

/-- Embedding of the fallback anchor loop, same shape as the card loop. -/
def findAnchorLink (movieKw : List (List Char)) : List AnchorEl → Option (List Char)
  | [] => none
  | a :: rest =>
    if contains_all (pyStrip (a.text.getD [])) movieKw then
      match a.href with
      | some h => if h.isEmpty then findAnchorLink movieKw rest else some (resolveUrl h)
      | none => findAnchorLink movieKw rest
    else findAnchorLink movieKw rest

/-- The Listing Locator as a whole: structured cards first, generic
anchors as fallback; `none` is the `no-movie-card` outcome of
`run_check` (NoListingFound). -/
def locate (movieKw : List (List Char)) (cards : List Card)
    (anchors : List AnchorEl) : Option (List Char) :=
  match findCardLink movieKw cards with
  | some l => some l
  | none => findAnchorLink movieKw anchors

/-- A card both matching the movie keywords and holding a truthy href. -/
def usableCard (movieKw : List (List Char)) (c : Card) : Bool :=
  contains_all (pyStrip (c.title.getD [])) movieKw
    && (match c.href with | some h => !h.isEmpty | none => false)

/-- An anchor both matching the movie keywords and holding a truthy href. -/
def usableAnchor (movieKw : List (List Char)) (a : AnchorEl) : Bool :=
  contains_all (pyStrip (a.text.getD [])) movieKw
    && (match a.href with | some h => !h.isEmpty | none => false)

theorem findCardLink_eq_none (movieKw : List (List Char)) :
    ∀ cards : List Card,
      (findCardLink movieKw cards = none
        ↔ ∀ c ∈ cards, usableCard movieKw c = false) := by
  intro cards
  induction cards with
  | nil => simp [findCardLink]
  | cons c cs ih =>
    rw [List.forall_mem_cons, ← ih]
    by_cases hm : contains_all (pyStrip (c.title.getD [])) movieKw = true
    · cases hh : c.href with
      | none => simp [findCardLink, usableCard, hm, hh]
      | some h =>
        cases hhe : h.isEmpty
        · simp [findCardLink, usableCard, hm, hh, hhe]
        · rw [List.isEmpty_iff] at hhe
          simp [findCardLink, usableCard, hm, hh, hhe]
    · simp only [Bool.not_eq_true] at hm
      simp [findCardLink, usableCard, hm]

theorem findAnchorLink_eq_none (movieKw : List (List Char)) :
    ∀ anchors : List AnchorEl,
      (findAnchorLink movieKw anchors = none
        ↔ ∀ a ∈ anchors, usableAnchor movieKw a = false) := by
  intro anchors
  induction anchors with
  | nil => simp [findAnchorLink]
  | cons a rest ih =>
    rw [List.forall_mem_cons, ← ih]
    by_cases hm : contains_all (pyStrip (a.text.getD [])) movieKw = true
    · cases hh : a.href with
      | none => simp [findAnchorLink, usableAnchor, hm, hh]
      | some h =>
        cases hhe : h.isEmpty
        · simp [findAnchorLink, usableAnchor, hm, hh, hhe]
        · rw [List.isEmpty_iff] at hhe
          simp [findAnchorLink, usableAnchor, hm, hh, hhe]
    · simp only [Bool.not_eq_true] at hm
      simp [findAnchorLink, usableAnchor, hm]

/-- C10: a card whose title matches the movie keywords but which has no
anchor or whose anchor lacks an href neither terminates the search nor is
an error — the locator's result with that card at the front is the result
without it (so later cards and the anchor fallback are still examined) —
and the locator reports NoListingFound (`none`) exactly when no card and
no fallback anchor both matches and carries a truthy href. -/
theorem c10_locator_skips_hrefless_cards (movieKw : List (List Char)) :
    (∀ (c : Card) (cs : List Card) (anchors : List AnchorEl),
        c.href = none →
          locate movieKw (c :: cs) anchors = locate movieKw cs anchors)
      ∧ (∀ (cards : List Card) (anchors : List AnchorEl),
          locate movieKw cards anchors = none
            ↔ (∀ c ∈ cards, usableCard movieKw c = false)
                ∧ (∀ a ∈ anchors, usableAnchor movieKw a = false)) := by
  constructor
  · intro c cs anchors hc
    simp [locate, findCardLink, hc]
  · intro cards anchors
    unfold locate
    cases hfc : findCardLink movieKw cards with
    | some l =>
      simp only [reduceCtorEq, false_iff, not_and]
      intro hall
      have : findCardLink movieKw cards = none :=
        (findCardLink_eq_none movieKw cards).mpr hall
      rw [hfc] at this
      cases this
    | none =>
      rw [findAnchorLink_eq_none movieKw anchors]
      have hcards := (findCardLink_eq_none movieKw cards).mp hfc
      exact ⟨fun h2 => ⟨hcards, h2⟩, fun h2 => h2.2⟩

/-- A matching card with no usable href, for the C10 witness. -/
def cardNoHref : Card :=
  { title := some "Demon Slayer Infinity Castle Japanese".toList, href := none }

/-- Witness for C10 at a concrete input: prepending a matching but
href-less card leaves the locator's outcome unchanged. -/
theorem c10_locator_skips_hrefless_cards_witness :
    locate MOVIE_KEYWORDS [cardNoHref] [] = locate MOVIE_KEYWORDS [] [] :=
  (c10_locator_skips_hrefless_cards MOVIE_KEYWORDS).1 cardNoHref [] [] rfl

end BmsWatch
